import Mathlib

/-!
Shallow embedding of the raytracer in `src/main.rs` and verification of its
specification claims.

Modelling conventions:
* Rust `f64` values are modelled as real numbers `ℝ` (exact arithmetic,
  no NaN/rounding); `f64::sqrt` is `Real.sqrt`, `f64::abs` is `|·|`.
* Rust `u8` values are modelled as `ℕ` with arithmetic reduced modulo `2^8`
  where the source performs wrapping `u8` arithmetic, and the saturating
  `f64 as u8` cast is modelled by truncation clamped to `[0, 255]`.
* The mutating methods of `Vector` (`cross`, `add`, `minus`, `mult`,
  `normalise`, `set`, `set_as`) mutate `self` in place and return `&mut self`;
  they are modelled as pure functions returning the updated vector.
* `Vec<T>` is `List T`; `Option<&T>` is `Option T`.
-/

namespace RT

/-- The `Vector` struct of the source: components `x`, `y`, `z` and the cached
magnitude field `n`. -/
structure Vector where
  x : ℝ
  y : ℝ
  z : ℝ
  n : ℝ

/-- The Euclidean norm of a vector's components, `sqrt (x² + y² + z²)`.
This is the specification's notion of "the true Euclidean norm of the
components", used to state the cached-magnitude invariant; the source never
stores it separately from `n`. -/
noncomputable def compNorm (v : Vector) : ℝ :=
  Real.sqrt (v.x * v.x + v.y * v.y + v.z * v.z)

/-- `Vector::new(x, y, z)`: the source caches `n: 1.0` (not the Euclidean
norm of the components). -/
noncomputable def Vector.new (x y z : ℝ) : Vector :=
  ⟨x, y, z, 1⟩

/-- `Vector::new_with_length(x, y, z, n)`. -/
noncomputable def Vector.new_with_length (x y z n : ℝ) : Vector :=
  ⟨x, y, z, n⟩

/-- `Vector::cross`: right-handed cross product; the cached magnitude is
recomputed from the resulting components. -/
noncomputable def Vector.cross (v other : Vector) : Vector :=
  let new_x := v.y * other.z - v.z * other.y
  let new_y := v.z * other.x - v.x * other.z
  let new_z := v.x * other.y - v.y * other.x
  ⟨new_x, new_y, new_z, Real.sqrt (new_x * new_x + new_y * new_y + new_z * new_z)⟩

/-- `Vector::dot`. -/
noncomputable def Vector.dot (v other : Vector) : ℝ :=
  v.x * other.x + v.y * other.y + v.z * other.z

/-- `Vector::add`: componentwise sum; cached magnitude recomputed. -/
noncomputable def Vector.add (v other : Vector) : Vector :=
  let nx := v.x + other.x
  let ny := v.y + other.y
  let nz := v.z + other.z
  ⟨nx, ny, nz, Real.sqrt (nx * nx + ny * ny + nz * nz)⟩

/-- `Vector::minus`: componentwise difference; cached magnitude recomputed. -/
noncomputable def Vector.minus (v other : Vector) : Vector :=
  let nx := v.x - other.x
  let ny := v.y - other.y
  let nz := v.z - other.z
  ⟨nx, ny, nz, Real.sqrt (nx * nx + ny * ny + nz * nz)⟩

/-- `Vector::mult(magnitude)`: scales the components, and updates the cached
magnitude by `self.n *= magnitude; self.n = self.n.abs()`. -/
noncomputable def Vector.mult (v : Vector) (magnitude : ℝ) : Vector :=
  ⟨v.x * magnitude, v.y * magnitude, v.z * magnitude, |v.n * magnitude|⟩

/-- `Vector::normalise`: divides the components by the cached magnitude `n`
and sets `n = 1.0`. -/
noncomputable def Vector.normalise (v : Vector) : Vector :=
  ⟨v.x / v.n, v.y / v.n, v.z / v.n, 1⟩

/-- `Vector::magnitude`: returns the cached field `n`, not a recomputation. -/
noncomputable def Vector.magnitude (v : Vector) : ℝ :=
  v.n

/-- `Vector::set(x, y, z)`: overwrites the components; cached magnitude
recomputed. -/
noncomputable def Vector.set (v : Vector) (x y z : ℝ) : Vector :=
  let _ := v
  ⟨x, y, z, Real.sqrt (x * x + y * y + z * z)⟩

/-- `Vector::set_as(other)`: copies all four fields of `other`. -/
noncomputable def Vector.set_as (v other : Vector) : Vector :=
  let _ := v
  other

/- Helper facts about `compNorm`. -/

theorem compNorm_nonneg (v : Vector) : 0 ≤ compNorm v :=
  Real.sqrt_nonneg _

theorem sqrt_scaled (f a b c : ℝ) :
    Real.sqrt ((a * f) * (a * f) + (b * f) * (b * f) + (c * f) * (c * f)) =
      |f| * Real.sqrt (a * a + b * b + c * c) := by
  rw [show (a * f) * (a * f) + (b * f) * (b * f) + (c * f) * (c * f)
        = (f * f) * (a * a + b * b + c * c) by ring,
      Real.sqrt_mul (mul_self_nonneg f), Real.sqrt_mul_self_eq_abs]

theorem compNorm_mult (v : Vector) (f : ℝ) :
    compNorm (v.mult f) = |f| * compNorm v := by
  simp only [compNorm, Vector.mult]
  exact sqrt_scaled f v.x v.y v.z

theorem compNorm_normalise (v : Vector) (h : v.magnitude = compNorm v)
    (hpos : 0 < compNorm v) : compNorm v.normalise = 1 := by
  have hn : v.n = compNorm v := h
  have hne : v.n ≠ 0 := by rw [hn]; exact ne_of_gt hpos
  simp only [compNorm, Vector.normalise]
  have : v.x / v.n = v.x * v.n⁻¹ := div_eq_mul_inv _ _
  rw [div_eq_mul_inv v.x, div_eq_mul_inv v.y, div_eq_mul_inv v.z, sqrt_scaled]
  rw [show Real.sqrt (v.x * v.x + v.y * v.y + v.z * v.z) = compNorm v from rfl]
  rw [abs_inv, hn, abs_of_pos hpos]
  exact inv_mul_cancel₀ (ne_of_gt hpos)

theorem sqrt_25 : Real.sqrt 25 = 5 := by
  rw [show (25 : ℝ) = 5 ^ 2 by norm_num]
  exact Real.sqrt_sq (by norm_num)

theorem sqrt_16 : Real.sqrt 16 = 4 := by
  rw [show (16 : ℝ) = 4 ^ 2 by norm_num]
  exact Real.sqrt_sq (by norm_num)

theorem sqrt_36 : Real.sqrt 36 = 6 := by
  rw [show (36 : ℝ) = 6 ^ 2 by norm_num]
  exact Real.sqrt_sq (by norm_num)

/-- C3 counterexample: `Vector::new(3, 4, 0)` has cached magnitude `1.0`,
not the Euclidean norm `sqrt (3² + 4² + 0²) = 5` claimed for it. -/
theorem C3_counterexample :
    ¬ ((Vector.new 3 4 0).magnitude = Real.sqrt (3 ^ 2 + 4 ^ 2 + 0 ^ 2)) := by
  intro h
  have h5 : Real.sqrt (3 ^ 2 + 4 ^ 2 + 0 ^ 2 : ℝ) = 5 := by
    rw [show (3 ^ 2 + 4 ^ 2 + 0 ^ 2 : ℝ) = 25 by norm_num]; exact sqrt_25
  rw [h5] at h
  have h1 : (Vector.new 3 4 0).magnitude = 1 := rfl
  rw [h1] at h
  norm_num at h

/-- C3 (amended): `Vector::new(x, y, z)` always sets the cached magnitude to
`1.0`, regardless of the components. -/
theorem C3_new_magnitude_one : ∀ x y z : ℝ, (Vector.new x y z).magnitude = 1 :=
  fun _ _ _ => rfl

/-- C2 counterexample: starting from `Vector::new(3, 4, 0)` (whose cached
magnitude `1.0` is already stale), the mutating operation `mult(1.0)` leaves
the cached magnitude at `1.0` while the Euclidean norm of the updated
components is `5`, so the unconditional claim fails. -/
theorem C2_counterexample :
    ¬ (((Vector.new 3 4 0).mult 1).magnitude = compNorm ((Vector.new 3 4 0).mult 1)) := by
  intro h
  have hm : ((Vector.new 3 4 0).mult 1).magnitude = 1 := by
    simp [Vector.new, Vector.mult, Vector.magnitude]
  have hc : compNorm ((Vector.new 3 4 0).mult 1) = 5 := by
    simp only [Vector.new, Vector.mult, compNorm]
    rw [show ((3 : ℝ) * 1 * (3 * 1) + 4 * 1 * (4 * 1) + 0 * 1 * (0 * 1)) = 25 by norm_num]
    exact sqrt_25
  rw [hm, hc] at h
  norm_num at h

/-- C2 (amended): `cross`, `add`, `minus` and `set` leave the cached magnitude
equal to the Euclidean norm of the updated components unconditionally;
`mult(factor)` multiplies the cached magnitude by `|factor|`, which equals the
recomputed norm whenever the cached magnitude was correct beforehand; and
`normalise` preserves the invariant whenever the cached magnitude was correct
and positive beforehand. The unconditional form of the claim is false because
`Vector::new` caches `1.0`. -/
theorem C2_magnitude_invariant :
    (∀ v other : Vector, (v.cross other).magnitude = compNorm (v.cross other)) ∧
    (∀ v other : Vector, (v.add other).magnitude = compNorm (v.add other)) ∧
    (∀ v other : Vector, (v.minus other).magnitude = compNorm (v.minus other)) ∧
    (∀ (v : Vector) (x y z : ℝ), (v.set x y z).magnitude = compNorm (v.set x y z)) ∧
    (∀ (v : Vector) (f : ℝ), v.magnitude = compNorm v →
      (v.mult f).magnitude = compNorm (v.mult f)) ∧
    (∀ v : Vector, v.magnitude = compNorm v → 0 < v.magnitude →
      (v.normalise).magnitude = compNorm v.normalise) := by
  refine ⟨fun v other => rfl, fun v other => rfl, fun v other => rfl,
    fun v x y z => rfl, ?_, ?_⟩
  · intro v f h
    have hm : (v.mult f).magnitude = |v.n * f| := rfl
    rw [hm, compNorm_mult]
    have hn : v.n = compNorm v := h
    rw [hn, abs_mul, abs_of_nonneg (compNorm_nonneg v), mul_comm]
  · intro v h hpos
    have hpos' : 0 < compNorm v := by rw [← h]; exact hpos
    rw [compNorm_normalise v h hpos']
    rfl

/-- C2 witness: the `mult` clause of the amended invariant applied to the unit
vector `new(0, 0, 1)` (whose cached magnitude is correct) and factor `2`. -/
theorem C2_witness :
    (Vector.new 0 0 1).magnitude = compNorm (Vector.new 0 0 1) ∧
    ((Vector.new 0 0 1).mult 2).magnitude = compNorm ((Vector.new 0 0 1).mult 2) := by
  have h : (Vector.new 0 0 1).magnitude = compNorm (Vector.new 0 0 1) := by
    simp only [Vector.new, Vector.magnitude, compNorm]
    rw [show ((0 : ℝ) * 0 + 0 * 0 + 1 * 1) = 1 by norm_num, Real.sqrt_one]
  exact ⟨h, C2_magnitude_invariant.2.2.2.2.1 (Vector.new 0 0 1) 2 h⟩

/-- C4 counterexample: `Vector::new(3, 4, 0)` has components of positive
Euclidean norm `5`, yet `normalise` (which divides by the stale cached
magnitude `1.0`) leaves the components at norm `5`, not `1`. -/
theorem C4_counterexample :
    0 < compNorm (Vector.new 3 4 0) ∧
    ¬ (compNorm ((Vector.new 3 4 0).normalise) = 1) := by
  have h5 : compNorm (Vector.new 3 4 0) = 5 := by
    simp only [Vector.new, compNorm]
    rw [show ((3 : ℝ) * 3 + 4 * 4 + 0 * 0) = 25 by norm_num]; exact sqrt_25
  constructor
  · rw [h5]; norm_num
  · intro h
    have hc : compNorm ((Vector.new 3 4 0).normalise) = 5 := by
      simp only [Vector.new, Vector.normalise, compNorm]
      rw [show ((3 : ℝ) / 1 * (3 / 1) + 4 / 1 * (4 / 1) + 0 / 1 * (0 / 1)) = 25 by norm_num]
      exact sqrt_25
    rw [hc] at h
    norm_num at h

/-- C4 (amended): for every `Vector` whose cached magnitude equals the
Euclidean norm of its components and is positive, `normalise` divides each
component by the prior cached magnitude, leaves the components with Euclidean
norm `1`, and sets the cached magnitude to `1`. -/
theorem C4_normalise (v : Vector) (h : v.magnitude = compNorm v)
    (hpos : 0 < compNorm v) :
    compNorm v.normalise = 1 ∧ (v.normalise).magnitude = 1 ∧
    (v.normalise).x = v.x / v.magnitude ∧
    (v.normalise).y = v.y / v.magnitude ∧
    (v.normalise).z = v.z / v.magnitude :=
  ⟨compNorm_normalise v h hpos, rfl, rfl, rfl, rfl⟩

/-- C4 witness: the amended statement applied to `new(s).set(3, 4, 0)`, whose
cached magnitude `sqrt 25 = 5` is correct and positive. -/
theorem C4_witness :
    ((Vector.new 0 0 0).set 3 4 0).magnitude = compNorm ((Vector.new 0 0 0).set 3 4 0) ∧
    compNorm (((Vector.new 0 0 0).set 3 4 0).normalise) = 1 := by
  have h : ((Vector.new 0 0 0).set 3 4 0).magnitude = compNorm ((Vector.new 0 0 0).set 3 4 0) := rfl
  have hpos : 0 < compNorm ((Vector.new 0 0 0).set 3 4 0) := by
    simp only [Vector.new, Vector.set, compNorm]
    rw [show ((3 : ℝ) * 3 + 4 * 4 + 0 * 0) = 25 by norm_num, sqrt_25]
    norm_num
  exact ⟨h, (C4_normalise _ h hpos).1⟩

/-- The `Ray` struct: `direction` and `origin` (field order as in the source). -/
structure Ray where
  direction : Vector
  origin : Vector

/-- `Ray::new(origin, direction)`. -/
noncomputable def Ray.new (origin direction : Vector) : Ray :=
  ⟨direction, origin⟩

/-- `Ray::shine_to(distance)`: `origin + direction * distance` (the cached
magnitudes are recomputed by `mult` and `add` exactly as in the source). -/
noncomputable def Ray.shine_to (r : Ray) (distance : ℝ) : Vector :=
  r.origin.add (r.direction.mult distance)

/-- The `Sphere` struct: `position` (center) and `radius`. -/
structure Sphere where
  position : Vector
  radius : ℝ

/-- `Sphere::new(position, radius)`. -/
noncomputable def Sphere.new (position : Vector) (radius : ℝ) : Sphere :=
  ⟨position, radius⟩

/-- The discriminant (`indicator` in the source) of `Sphere::collides_with`:
`l.dot(o_minus_c)² − (|o_minus_c|² − r²)`, where `l` is the ray direction
normalised (by its cached magnitude), `o_minus_c = origin − center`, and
`|o_minus_c|` is the cached magnitude recomputed by `minus`. -/
noncomputable def Sphere.indicator (s : Sphere) (ray : Ray) : ℝ :=
  (ray.direction.normalise.dot (ray.origin.minus s.position)) ^ 2
    - ((ray.origin.minus s.position).magnitude ^ 2 - s.radius ^ 2)

/-- The candidate-distance base `−l.dot(o_minus_c)` of `Sphere::collides_with`. -/
noncomputable def Sphere.hit_d (s : Sphere) (ray : Ray) : ℝ :=
  -(ray.direction.normalise.dot (ray.origin.minus s.position))

/-- The candidate distance `d1 = −l.dot(o_minus_c) + sqrt(indicator)`. -/
noncomputable def Sphere.d1 (s : Sphere) (ray : Ray) : ℝ :=
  s.hit_d ray + Real.sqrt (s.indicator ray)

/-- The candidate distance `d2 = −l.dot(o_minus_c) − sqrt(indicator)`. -/
noncomputable def Sphere.d2 (s : Sphere) (ray : Ray) : ℝ :=
  s.hit_d ray - Real.sqrt (s.indicator ray)

/-- `Sphere::collides_with(ray)`: the closed-form ray-sphere intersection of
the source, returning hit points (world-space positions via `shine_to`).
The branch structure mirrors the source: an exactly-zero discriminant returns
the single point at distance `−l.dot(o_minus_c)` (unfiltered); a positive
discriminant filters the two candidates by sign and orders them `min`, `max`;
otherwise no hits. -/
noncomputable def Sphere.collides_with (s : Sphere) (ray : Ray) : List Vector :=
  if s.indicator ray = 0 then
    [ray.shine_to (s.hit_d ray)]
  else if 0 < s.indicator ray then
    if 0 ≤ s.d1 ray ∧ 0 ≤ s.d2 ray then
      [ray.shine_to (min (s.d1 ray) (s.d2 ray)), ray.shine_to (max (s.d1 ray) (s.d2 ray))]
    else if 0 ≤ s.d1 ray then
      [ray.shine_to (s.d1 ray)]
    else if 0 ≤ s.d2 ray then
      [ray.shine_to (s.d2 ray)]
    else
      []
  else
    []

/-- `const EPSILON: f64 = 0.000000001`. -/
noncomputable def EPSILON : ℝ := 0.000000001

/-- The `Light` struct: `position` and `intensity`. -/
structure Light where
  position : Vector
  intensity : ℝ

/-- `Light::new(position, intensity)`. -/
noncomputable def Light.new (position : Vector) (intensity : ℝ) : Light :=
  ⟨position, intensity⟩

/-- The `Camera` struct (field order as in the source). -/
structure Camera where
  plane_z : Vector
  plane_x : Vector
  pos : ℝ × ℝ
  width : ℝ
  height : ℝ
  pixels_width : ℕ
  pixels_height : ℕ

/-- `Camera::new(width, height, pixels_width, pixels_height)`: default basis
vectors `z = (0,0,1)`, `x = (1,0,0)`, position `(0,0)`. -/
noncomputable def Camera.new (width height : ℝ) (pixels_width pixels_height : ℕ) : Camera :=
  ⟨Vector.new 0 0 1, Vector.new 1 0 0, (0, 0), width, height, pixels_width, pixels_height⟩

/-- Rust's saturating `f64 as u8` cast (for non-NaN inputs): truncate toward
zero and clamp to `[0, 255]`. -/
noncomputable def f64_to_u8 (x : ℝ) : ℕ :=
  if x ≤ 0 then 0 else min (Int.toNat ⌊x⌋) 255

/-- The occlusion condition of `Camera::cast_ray`: some sphere in the object
list has a hit point whose distance from the shadow-ray origin (recomputed by
`collision.minus(&ray.origin).magnitude()`) lies strictly between `EPSILON`
and `light_distance`. -/
def OccludedP (ray : Ray) (light_distance : ℝ) (objects : List Sphere) : Prop :=
  ∃ object ∈ objects, ∃ collision ∈ object.collides_with ray,
    EPSILON < (collision.minus ray.origin).magnitude ∧
      (collision.minus ray.origin).magnitude < light_distance

/-- `Camera::cast_ray(ray, light_distance, objects)`: returns `0` as soon as
an occluding intersection is found (the loop's early return), and otherwise
falls back to `255 - 25 * (light_distance as u8)` computed in `u8`, where the
multiplication wraps modulo `256` (release-mode wrapping semantics; in the
source this multiplication overflows `u8` whenever the truncated distance
exceeds `10`). The `if` on the occlusion proposition uses classical
decidability, mirroring the loop's early-return search. -/
noncomputable def Camera.cast_ray (ray : Ray) (light_distance : ℝ)
    (objects : List Sphere) : ℕ :=
  haveI := Classical.propDecidable (OccludedP ray light_distance objects)
  if OccludedP ray light_distance objects then 0
  else 255 - (25 * f64_to_u8 light_distance) % 256

theorem f64_to_u8_le (x : ℝ) : f64_to_u8 x ≤ 255 := by
  unfold f64_to_u8
  split
  · exact Nat.zero_le _
  · exact min_le_right _ _

theorem f64_to_u8_nat (m : ℕ) : f64_to_u8 (m : ℝ) = min m 255 := by
  unfold f64_to_u8
  by_cases h : (m : ℝ) ≤ 0
  · have hm : m = 0 := by exact_mod_cast le_antisymm h (Nat.cast_nonneg m)
    subst hm
    simp
  · rw [if_neg h, Int.floor_natCast, Int.toNat_natCast]

/-- C5 counterexample: with an empty object list (hence no occluding
intersection at all), a shadow ray with `lightDistance = 215` still returns
intensity `0`, because the `u8` fall-back `255 − 25·215` wraps to `0`;
the claimed "if and only if" fails. -/
theorem C5_counterexample :
    Camera.cast_ray (Ray.new (Vector.new 0 0 0) (Vector.new 0 0 1)) 215 [] = 0 ∧
    ¬ OccludedP (Ray.new (Vector.new 0 0 0) (Vector.new 0 0 1)) 215 [] := by
  have hno : ¬ OccludedP (Ray.new (Vector.new 0 0 0) (Vector.new 0 0 1)) 215 [] := by
    rintro ⟨o, ho, -⟩
    exact absurd ho (List.not_mem_nil o)
  refine ⟨?_, hno⟩
  unfold Camera.cast_ray
  rw [if_neg hno]
  have h215 : f64_to_u8 (215 : ℝ) = 215 := by
    rw [show (215 : ℝ) = ((215 : ℕ) : ℝ) by norm_num, f64_to_u8_nat]
    decide
  rw [h215]

/-- C5 (amended): `Camera::cast_ray` returns `0` if and only if some sphere
yields an intersection at distance `EPSILON < d < lightDistance`, provided the
truncated-and-saturated `lightDistance` is not `215`; for
`lightDistance ∈ [215, 216)` the overflowed `u8` fall-back is also `0` with no
occlusion required. -/
theorem C5_cast_ray_iff (ray : Ray) (light_distance : ℝ) (objects : List Sphere)
    (h : f64_to_u8 light_distance ≠ 215) :
    Camera.cast_ray ray light_distance objects = 0 ↔
      OccludedP ray light_distance objects := by
  unfold Camera.cast_ray
  by_cases hocc : OccludedP ray light_distance objects
  · rw [if_pos hocc]
    exact ⟨fun _ => hocc, fun _ => rfl⟩
  · rw [if_neg hocc]
    constructor
    · intro heq
      exfalso
      have hk : f64_to_u8 light_distance ≤ 255 := f64_to_u8_le _
      omega
    · intro hc
      exact absurd hc hocc

/-- C5 witness: the amended equivalence applied at `lightDistance = 1` with an
empty object list. -/
theorem C5_witness :
    f64_to_u8 (1 : ℝ) ≠ 215 ∧
    (Camera.cast_ray (Ray.new (Vector.new 0 0 0) (Vector.new 0 0 1)) 1 [] = 0 ↔
      OccludedP (Ray.new (Vector.new 0 0 0) (Vector.new 0 0 1)) 1 []) := by
  have h : f64_to_u8 (1 : ℝ) ≠ 215 := by
    rw [show (1 : ℝ) = ((1 : ℕ) : ℝ) by norm_num, f64_to_u8_nat]
    norm_num
  exact ⟨h, C5_cast_ray_iff _ _ _ h⟩

/-- Modelled from the spec (for comparison with the code): the claimed
per-light contribution `255 − 25 * floor(lightDistance)` clamped to
`[0, 255]`. -/
noncomputable def specContributedIntensity (light_distance : ℝ) : ℤ :=
  max 0 (min 255 (255 - 25 * ⌊light_distance⌋))

/-- C6 counterexample: at `lightDistance = 11` with no occluder the code
returns `236` (the `u8` multiplication `25 · 11 = 275` wraps to `19`), while
the claimed clamped formula gives `0`; intensity also jumps from `5` at
distance `10` up to `236` at distance `11`, so it is not non-increasing. -/
theorem C6_counterexample :
    Camera.cast_ray (Ray.new (Vector.new 0 0 0) (Vector.new 0 0 1)) 11 [] = 236 ∧
    specContributedIntensity 11 = 0 ∧
    Camera.cast_ray (Ray.new (Vector.new 0 0 0) (Vector.new 0 0 1)) 10 [] = 5 := by
  have hno : ∀ d : ℝ, ¬ OccludedP (Ray.new (Vector.new 0 0 0) (Vector.new 0 0 1)) d [] := by
    rintro d ⟨o, ho, -⟩
    exact absurd ho (List.not_mem_nil o)
  refine ⟨?_, ?_, ?_⟩
  · unfold Camera.cast_ray
    rw [if_neg (hno 11), show (11 : ℝ) = ((11 : ℕ) : ℝ) by norm_num, f64_to_u8_nat]
    decide
  · unfold specContributedIntensity
    rw [show (11 : ℝ) = ((11 : ℕ) : ℝ) by norm_num, Int.floor_natCast]
    rfl
  · unfold Camera.cast_ray
    rw [if_neg (hno 10), show (10 : ℝ) = ((10 : ℕ) : ℝ) by norm_num, f64_to_u8_nat]
    decide

/-- C6 (amended): for an unoccluded shadow ray the contributed intensity is
`255 − ((25 · c) mod 256)` where `c` is `lightDistance` truncated toward zero
and saturated to `[0, 255]`; it always lies in `[0, 255]`, and whenever
`⌊lightDistance⌋ ≤ 10` it equals the claimed clamped formula
`255 − 25·⌊lightDistance⌋` (the agreement is not exclusive to that range: in
the wrap window `[215, 216)` both sides are coincidentally `0`). Beyond floor
`10` the `u8` product wraps, so the intensity is not non-increasing in
`lightDistance`. -/
theorem C6_falloff :
    (∀ (ray : Ray) (light_distance : ℝ) (objects : List Sphere),
      Camera.cast_ray ray light_distance objects ≤ 255) ∧
    (∀ (ray : Ray) (light_distance : ℝ) (objects : List Sphere),
      ¬ OccludedP ray light_distance objects →
      Camera.cast_ray ray light_distance objects
        = 255 - (25 * f64_to_u8 light_distance) % 256) ∧
    (∀ (ray : Ray) (light_distance : ℝ) (objects : List Sphere),
      ¬ OccludedP ray light_distance objects → 0 ≤ light_distance →
      ⌊light_distance⌋ ≤ 10 →
      (Camera.cast_ray ray light_distance objects : ℤ)
        = specContributedIntensity light_distance) := by
  refine ⟨?_, ?_, ?_⟩
  · intro ray light_distance objects
    unfold Camera.cast_ray
    split
    · exact Nat.zero_le _
    · exact Nat.sub_le _ _
  · intro ray light_distance objects hocc
    unfold Camera.cast_ray
    rw [if_neg hocc]
  · intro ray light_distance objects hocc hld hfl
    unfold Camera.cast_ray
    rw [if_neg hocc]
    by_cases hle : light_distance ≤ 0
    · have h0 : light_distance = 0 := le_antisymm hle hld
      subst h0
      have hf : f64_to_u8 (0 : ℝ) = 0 := by unfold f64_to_u8; rw [if_pos le_rfl]
      rw [hf]
      unfold specContributedIntensity
      rw [Int.floor_zero]
      rfl
    · have hfl0 : (0 : ℤ) ≤ ⌊light_distance⌋ := Int.floor_nonneg.mpr hld
      have htn : (Int.toNat ⌊light_distance⌋ : ℤ) = ⌊light_distance⌋ :=
        Int.toNat_of_nonneg hfl0
      have hk : f64_to_u8 light_distance = Int.toNat ⌊light_distance⌋ := by
        unfold f64_to_u8
        rw [if_neg hle]
        omega
      have hk10 : Int.toNat ⌊light_distance⌋ ≤ 10 := by omega
      rw [hk]
      unfold specContributedIntensity
      have hmod : (25 * Int.toNat ⌊light_distance⌋) % 256
          = 25 * Int.toNat ⌊light_distance⌋ := Nat.mod_eq_of_lt (by omega)
      rw [hmod]
      omega

/-- C6 witness: the clamped-formula clause of the amended statement applied at
`lightDistance = 3` with an empty object list. -/
theorem C6_witness :
    ¬ OccludedP (Ray.new (Vector.new 0 0 0) (Vector.new 0 0 1)) 3 [] ∧
    (0 : ℝ) ≤ 3 ∧ ⌊(3 : ℝ)⌋ ≤ 10 ∧
    (Camera.cast_ray (Ray.new (Vector.new 0 0 0) (Vector.new 0 0 1)) 3 [] : ℤ)
      = specContributedIntensity 3 := by
  have hno : ¬ OccludedP (Ray.new (Vector.new 0 0 0) (Vector.new 0 0 1)) 3 [] := by
    rintro ⟨o, ho, -⟩
    exact absurd ho (List.not_mem_nil o)
  have h3 : ⌊(3 : ℝ)⌋ ≤ 10 := by
    rw [show (3 : ℝ) = ((3 : ℕ) : ℝ) by norm_num, Int.floor_natCast]
    norm_num
  exact ⟨hno, by norm_num, h3, C6_falloff.2.2 _ _ _ hno (by norm_num) h3⟩

theorem d2_le_d1 (s : Sphere) (ray : Ray) : s.d2 ray ≤ s.d1 ray := by
  unfold Sphere.d1 Sphere.d2
  have hs := Real.sqrt_nonneg (s.indicator ray)
  linarith

/-- In the positive-discriminant case, `collides_with` returns exactly the
non-negative candidate distances, in ascending order, mapped through
`shine_to`. -/
theorem collides_with_pos (s : Sphere) (ray : Ray) (h : 0 < s.indicator ray) :
    s.collides_with ray
      = ([s.d2 ray, s.d1 ray].filter fun d => decide (0 ≤ d)).map ray.shine_to := by
  have hdd : s.d2 ray ≤ s.d1 ray := d2_le_d1 s ray
  unfold Sphere.collides_with
  rw [if_neg (ne_of_gt h), if_pos h]
  by_cases h1 : 0 ≤ s.d1 ray <;> by_cases h2 : 0 ≤ s.d2 ray
  · rw [if_pos ⟨h1, h2⟩, min_eq_right hdd, max_eq_left hdd]
    simp [List.filter, h1, h2]
  · rw [if_neg (by tauto), if_pos h1]
    simp [List.filter, h1, h2]
  · rw [if_neg (by tauto), if_neg h1, if_pos h2]
    simp [List.filter, h1, h2]
  · rw [if_neg (by tauto), if_neg h1, if_neg h2]
    simp [List.filter, h1, h2]

/-- The distance from the ray origin to `shine_to d` is `|d|` times the
Euclidean norm of the (unnormalised) direction components. -/
theorem shine_to_dist (r : Ray) (d : ℝ) :
    ((r.shine_to d).minus r.origin).magnitude
      = |d| * Real.sqrt (r.direction.x * r.direction.x +
          r.direction.y * r.direction.y + r.direction.z * r.direction.z) := by
  simp only [Ray.shine_to, Vector.add, Vector.minus, Vector.mult, Vector.magnitude]
  rw [show r.origin.x + r.direction.x * d - r.origin.x = r.direction.x * d by ring,
      show r.origin.y + r.direction.y * d - r.origin.y = r.direction.y * d by ring,
      show r.origin.z + r.direction.z * d - r.origin.z = r.direction.z * d by ring]
  exact sqrt_scaled d _ _ _

/-- The concrete scenario of the claim: sphere at `(0,0,5)` with radius `1`,
ray from the origin along `+z`; the cached magnitude of the ray origin is
irrelevant because `minus` and `add` recompute it. -/
theorem collides_concrete (n0 : ℝ) :
    (Sphere.new (Vector.mk 0 0 5 1) 1).collides_with
        (Ray.new (Vector.mk 0 0 0 n0) (Vector.mk 0 0 1 1))
      = [Vector.mk 0 0 4 4, Vector.mk 0 0 6 6] := by
  have hind : (Sphere.new (Vector.mk 0 0 5 1) 1).indicator
      (Ray.new (Vector.mk 0 0 0 n0) (Vector.mk 0 0 1 1)) = 1 := by
    unfold Sphere.indicator
    simp only [Sphere.new, Ray.new, Vector.normalise, Vector.minus, Vector.dot,
      Vector.magnitude]
    rw [show ((0 : ℝ) - 0) * ((0 : ℝ) - 0) + ((0 : ℝ) - 0) * ((0 : ℝ) - 0) +
          ((0 : ℝ) - 5) * ((0 : ℝ) - 5) = 25 by norm_num,
        Real.sq_sqrt (by norm_num : (0 : ℝ) ≤ 25)]
    norm_num
  have hd1 : (Sphere.new (Vector.mk 0 0 5 1) 1).d1
      (Ray.new (Vector.mk 0 0 0 n0) (Vector.mk 0 0 1 1)) = 6 := by
    unfold Sphere.d1 Sphere.hit_d
    rw [hind, Real.sqrt_one]
    simp only [Sphere.new, Ray.new, Vector.normalise, Vector.minus, Vector.dot]
    norm_num
  have hd2 : (Sphere.new (Vector.mk 0 0 5 1) 1).d2
      (Ray.new (Vector.mk 0 0 0 n0) (Vector.mk 0 0 1 1)) = 4 := by
    unfold Sphere.d2 Sphere.hit_d
    rw [hind, Real.sqrt_one]
    simp only [Sphere.new, Ray.new, Vector.normalise, Vector.minus, Vector.dot]
    norm_num
  have hs4 : (Ray.new (Vector.mk 0 0 0 n0) (Vector.mk 0 0 1 1)).shine_to 4
      = Vector.mk 0 0 4 4 := by
    unfold Ray.shine_to
    simp only [Ray.new, Vector.mult, Vector.add]
    norm_num [sqrt_16]
  have hs6 : (Ray.new (Vector.mk 0 0 0 n0) (Vector.mk 0 0 1 1)).shine_to 6
      = Vector.mk 0 0 6 6 := by
    unfold Ray.shine_to
    simp only [Ray.new, Vector.mult, Vector.add]
    norm_num [sqrt_36]
  unfold Sphere.collides_with
  rw [hind, hd1, hd2,
      if_neg (by norm_num : ¬ (1 : ℝ) = 0), if_pos (by norm_num : (0 : ℝ) < 1),
      if_pos ⟨by norm_num, by norm_num⟩,
      show min (6 : ℝ) 4 = 4 by norm_num [min_def],
      show max (6 : ℝ) 4 = 6 by norm_num [max_def],
      hs4, hs6]

/-- C1: `Sphere::collides_with` implements the closed-form ray-sphere test:
with discriminant `indicator`, it returns no hit when the discriminant is
negative, one hit when it is zero, and when positive it keeps exactly the
non-negative candidate distances and returns the surviving hits ordered
nearest-first; for the sphere at `(0,0,5)` with radius `1` and the ray from
`(0,0,0)` along `(0,0,1)`, it returns exactly two hit points at distances
`4` and `6` from the ray origin, in that order. -/
theorem C1_collides_with_spec :
    (∀ (s : Sphere) (ray : Ray), s.indicator ray < 0 → s.collides_with ray = []) ∧
    (∀ (s : Sphere) (ray : Ray), s.indicator ray = 0 →
      s.collides_with ray = [ray.shine_to (s.hit_d ray)]) ∧
    (∀ (s : Sphere) (ray : Ray), 0 < s.indicator ray →
      s.collides_with ray
        = ([s.d2 ray, s.d1 ray].filter fun d => decide (0 ≤ d)).map ray.shine_to) ∧
    (∀ (s : Sphere) (ray : Ray) (p q : Vector), 0 < s.indicator ray →
      s.collides_with ray = [p, q] →
      (p.minus ray.origin).magnitude ≤ (q.minus ray.origin).magnitude) ∧
    ((Sphere.new (Vector.new 0 0 5) 1).collides_with
        (Ray.new (Vector.new 0 0 0) (Vector.new 0 0 1))).map
      (fun c => (c.minus (Vector.new 0 0 0)).magnitude) = [4, 6] := by
  refine ⟨?_, ?_, collides_with_pos, ?_, ?_⟩
  · intro s ray h
    unfold Sphere.collides_with
    rw [if_neg (ne_of_lt h), if_neg (not_lt.mpr (le_of_lt h))]
  · intro s ray h
    unfold Sphere.collides_with
    rw [if_pos h]
  · intro s ray p q h hpq
    rw [collides_with_pos s ray h] at hpq
    by_cases h1 : 0 ≤ s.d1 ray <;> by_cases h2 : 0 ≤ s.d2 ray <;>
      simp [List.filter, h1, h2] at hpq
    obtain ⟨hp, hq⟩ := hpq
    rw [← hp, ← hq, shine_to_dist, shine_to_dist]
    apply mul_le_mul_of_nonneg_right ?_ (Real.sqrt_nonneg _)
    rw [abs_of_nonneg h2, abs_of_nonneg h1]
    exact d2_le_d1 s ray
  · simp only [Vector.new]
    rw [collides_concrete 1]
    simp only [List.map, Vector.minus, Vector.magnitude]
    norm_num [sqrt_16, sqrt_36]

/-- C1 witness: the negative-discriminant clause applied to the same sphere
and a ray aimed along `+x` (discriminant `−24`), which yields no hits. -/
theorem C1_witness :
    (Sphere.new (Vector.mk 0 0 5 1) 1).indicator
        (Ray.new (Vector.mk 0 0 0 1) (Vector.mk 1 0 0 1)) < 0 ∧
    (Sphere.new (Vector.mk 0 0 5 1) 1).collides_with
        (Ray.new (Vector.mk 0 0 0 1) (Vector.mk 1 0 0 1)) = [] := by
  have h : (Sphere.new (Vector.mk 0 0 5 1) 1).indicator
      (Ray.new (Vector.mk 0 0 0 1) (Vector.mk 1 0 0 1)) < 0 := by
    unfold Sphere.indicator
    simp only [Sphere.new, Ray.new, Vector.normalise, Vector.minus, Vector.dot,
      Vector.magnitude]
    rw [show ((0 : ℝ) - 0) * ((0 : ℝ) - 0) + ((0 : ℝ) - 0) * ((0 : ℝ) - 0) +
          ((0 : ℝ) - 5) * ((0 : ℝ) - 5) = 25 by norm_num,
        Real.sq_sqrt (by norm_num : (0 : ℝ) ≤ 25)]
    norm_num
  exact ⟨h, C1_collides_with_spec.1 _ _ h⟩

/-- The `Canvas` struct: `data` is the `Vec<Vec<Pixel>>` grid (a pixel's
`colour: u8` modelled as `ℕ`), with `width` and `height` fields. -/
structure Canvas where
  data : List (List ℕ)
  width : ℕ
  height : ℕ

/-- `Canvas::new(width, height)`: `height` rows of `width` pixels, all
initialised to `Pixel::white()` (`255`). -/
def Canvas.new (width height : ℕ) : Canvas :=
  ⟨List.replicate height (List.replicate width 255), width, height⟩

/-- `Canvas::get(x, y)`: `data.get(x).and_then(|ys| ys.get(y))` — note `x`
indexes rows (bounded by `height`) and `y` indexes columns (bounded by
`width`). -/
def Canvas.get (c : Canvas) (x y : ℕ) : Option ℕ :=
  (c.data[x]?).bind fun ys => ys[y]?

/-- `Canvas::ink(x, y, intensity)`: writes through `get_mut`, a no-op when
the coordinates are out of bounds (`List.set` leaves a list unchanged beyond
its length, matching the failed `get_mut`). -/
def Canvas.ink (c : Canvas) (x y intensity : ℕ) : Canvas :=
  match c.data[x]? with
  | some row => ⟨c.data.set x (row.set y intensity), c.width, c.height⟩
  | none => c

/-- The pixel enumeration `iproduct!(0..a, 0..b)` (first iterator outermost),
in the append-recursive form `range (a+1) = range a ++ [a]`. -/
def iproduct : ℕ → ℕ → List (ℕ × ℕ)
  | 0, _ => []
  | a + 1, b => iproduct a b ++ (List.range b).map fun y => (a, y)

/-- The derived basis vector `plane_y = plane_z.cross(&plane_x)` computed
once per render. -/
noncomputable def Camera.plane_y (cam : Camera) : Vector :=
  cam.plane_z.cross cam.plane_x

/-- The primary-ray origin for pixel `(x, y)`:
`plane_x * (x * width_step) + plane_y * (y * height_step)` accumulated with
`add` onto the reset origin. `add` recomputes the cached magnitude from the
components, so the initial `new(0,0,0)` and the per-iteration `set(0,0,0)`
reset yield the same origin. -/
noncomputable def Camera.ray_origin (cam : Camera) (x y : ℕ) : Vector :=
  ((Vector.new 0 0 0).add
      (cam.plane_x.mult ((x : ℝ) * (cam.width / (cam.pixels_width : ℝ))))).add
    (cam.plane_y.mult ((y : ℝ) * (cam.height / (cam.pixels_height : ℝ))))

/-- The primary ray of pixel `(x, y)`: offset origin, direction `plane_z`
(shared by all pixels — orthographic projection). -/
noncomputable def Camera.rayAt (cam : Camera) (x y : ℕ) : Ray :=
  ⟨cam.plane_z, cam.ray_origin x y⟩

/-- The primary-hit resolution of the pixel loop: the first object in list
order whose `collides_with` is non-empty, together with its first hit point
(the `if let Some(collision) = ...first()` followed by `break`). -/
noncomputable def firstHit (objects : List Sphere) (ray : Ray) : Option Vector :=
  match objects with
  | [] => none
  | object :: rest =>
    match (object.collides_with ray).head? with
    | some collision => some collision
    | none => firstHit rest ray

/-- The intensity contributed by one light at a hit point: the shadow ray
starts at the collision and points toward the light; `light_distance` is the
magnitude of `light.position − collision` read before normalising. -/
noncomputable def lightIntensity (objects : List Sphere) (collision : Vector)
    (light : Light) : ℕ :=
  Camera.cast_ray
    (Ray.new collision ((light.position.minus collision).normalise))
    ((light.position.minus collision).magnitude) objects

/-- The per-pixel light loop: `intensity` starts at `0` and is overwritten by
every iteration (single assignment, no accumulation). -/
noncomputable def shade (objects : List Sphere) (lights : List Light)
    (collision : Vector) : ℕ :=
  lights.foldl (fun _intensity light => lightIntensity objects collision light) 0

/-- One iteration of the pixel loop of `Camera::raytrace`: ink the pixel with
the shaded intensity if some object reports a hit, otherwise leave the canvas
untouched. -/
noncomputable def renderPixel (cam : Camera) (objects : List Sphere)
    (lights : List Light) (canvas : Canvas) (p : ℕ × ℕ) : Canvas :=
  match firstHit objects (cam.rayAt p.1 p.2) with
  | none => canvas
  | some collision => canvas.ink p.1 p.2 (shade objects lights collision)

/-- `Camera::raytrace(objects, lights)`: fold the pixel loop over
`iproduct!(0..pixels_width, 0..pixels_height)` starting from a fresh white
canvas of `pixels_width × pixels_height`. -/
noncomputable def Camera.raytrace (cam : Camera) (objects : List Sphere)
    (lights : List Light) : Canvas :=
  (iproduct cam.pixels_width cam.pixels_height).foldl
    (renderPixel cam objects lights)
    (Canvas.new cam.pixels_width cam.pixels_height)

/-- The `Scene` struct (field order as in the source). -/
structure Scene where
  objects : List Sphere
  camera : Camera
  lights : List Light

/-- `Scene::new(camera)`. -/
noncomputable def Scene.new (camera : Camera) : Scene :=
  ⟨[], camera, []⟩

/-- `Scene::add_object(o)`: append-only builder push. -/
noncomputable def Scene.add_object (s : Scene) (o : Sphere) : Scene :=
  ⟨s.objects ++ [o], s.camera, s.lights⟩

/-- `Scene::add_light(l)`: append-only builder push. -/
noncomputable def Scene.add_light (s : Scene) (l : Light) : Scene :=
  ⟨s.objects, s.camera, s.lights ++ [l]⟩

/-- `Scene::raytrace()`: delegates to the camera with the accumulated object
and light lists. -/
noncomputable def Scene.raytrace (s : Scene) : Canvas :=
  s.camera.raytrace s.objects s.lights

theorem list_getElem?_set {α : Type} (l : List α) (i j : ℕ) (a : α) :
    (l.set i a)[j]? = if i = j ∧ i < l.length then some a else l[j]? := by
  induction l generalizing i j with
  | nil => simp
  | cons hd tl ih =>
    cases i with
    | zero =>
      cases j with
      | zero => simp
      | succ j => simp
    | succ i =>
      cases j with
      | zero => simp
      | succ j =>
        simp only [List.set_cons_succ, List.getElem?_cons_succ, List.length_cons]
        rw [ih]
        by_cases h : i = j ∧ i < tl.length
        · rw [if_pos h, if_pos (by omega)]
        · rw [if_neg h, if_neg (by omega)]

theorem list_getElem?_replicate {α : Type} (n i : ℕ) (a : α) :
    (List.replicate n a)[i]? = if i < n then some a else none := by
  induction n generalizing i with
  | zero => simp
  | succ n ih =>
    cases i with
    | zero => simp
    | succ i => simp [List.replicate_succ, ih, Nat.succ_lt_succ_iff]

/-- The effect of `ink` on a single cell: the targeted cell receives the new
value when it exists, and every other cell is unchanged. -/
theorem Canvas.get_ink_char (c : Canvas) (x y v i j : ℕ) :
    (c.ink x y v).get i j
      = if x = i ∧ y = j ∧ (c.get x y).isSome then some v else c.get i j := by
  unfold Canvas.ink
  cases hrow : c.data[x]? with
  | none =>
    have hx : (c.get x y).isSome = false := by
      unfold Canvas.get
      rw [hrow]
      rfl
    rw [if_neg (by simp [hx])]
  | some row =>
    have hxlen : x < c.data.length := by
      by_contra hcon
      rw [List.getElem?_eq_none (by omega)] at hrow
      exact Option.noConfusion hrow
    have hget : c.get x y = row[y]? := by
      unfold Canvas.get
      rw [hrow]
      rfl
    have hys : (c.get x y).isSome ↔ y < row.length := by
      rw [hget]
      constructor
      · intro hs
        by_contra hcon
        rw [List.getElem?_eq_none (by omega)] at hs
        exact Bool.noConfusion hs
      · intro hlt
        rw [List.getElem?_eq_getElem hlt]
        rfl
    have hL : (Canvas.mk (c.data.set x (row.set y v)) c.width c.height).get i j
        = ((c.data.set x (row.set y v))[i]?).bind fun ys => ys[j]? := rfl
    rw [hL, list_getElem?_set]
    by_cases hxi : x = i
    · subst hxi
      rw [if_pos ⟨rfl, hxlen⟩]
      show (row.set y v)[j]? = _
      rw [list_getElem?_set]
      by_cases hyj : y = j ∧ y < row.length
      · rw [if_pos hyj, if_pos ⟨rfl, hyj.1, hys.mpr hyj.2⟩]
      · rw [if_neg hyj, if_neg (fun hcon => hyj ⟨hcon.2.1, hys.mp hcon.2.2⟩)]
        have hR : c.get x j = row[j]? := by
          unfold Canvas.get
          rw [hrow]
          rfl
        rw [hR]
    · rw [if_neg (by tauto), if_neg (by tauto)]
      rfl

theorem Canvas.get_new (w h x y : ℕ) :
    (Canvas.new w h).get x y = if x < h ∧ y < w then some 255 else none := by
  have hL : (Canvas.new w h).get x y
      = ((List.replicate h (List.replicate w 255))[x]?).bind fun ys => ys[y]? := rfl
  rw [hL, list_getElem?_replicate]
  by_cases hx : x < h
  · rw [if_pos hx]
    show (List.replicate w 255)[y]? = _
    rw [list_getElem?_replicate]
    by_cases hy : y < w
    · rw [if_pos hy, if_pos ⟨hx, hy⟩]
    · rw [if_neg hy, if_neg (by tauto)]
  · rw [if_neg hx, if_neg (by tauto)]
    rfl

theorem Canvas.ink_dims (c : Canvas) (x y v : ℕ) :
    (c.ink x y v).width = c.width ∧ (c.ink x y v).height = c.height := by
  unfold Canvas.ink
  split <;> exact ⟨rfl, rfl⟩

theorem renderPixel_dims (cam : Camera) (objs : List Sphere) (lights : List Light)
    (c : Canvas) (p : ℕ × ℕ) :
    (renderPixel cam objs lights c p).width = c.width ∧
    (renderPixel cam objs lights c p).height = c.height := by
  unfold renderPixel
  split
  · exact ⟨rfl, rfl⟩
  · exact Canvas.ink_dims _ _ _ _

theorem foldl_renderPixel_dims (cam : Camera) (objs : List Sphere)
    (lights : List Light) :
    ∀ (ps : List (ℕ × ℕ)) (c : Canvas),
      (ps.foldl (renderPixel cam objs lights) c).width = c.width ∧
      (ps.foldl (renderPixel cam objs lights) c).height = c.height := by
  intro ps
  induction ps with
  | nil => exact fun c => ⟨rfl, rfl⟩
  | cons p ps ih =>
    intro c
    simp only [List.foldl_cons]
    obtain ⟨hw, hh⟩ := ih (renderPixel cam objs lights c p)
    obtain ⟨hw', hh'⟩ := renderPixel_dims cam objs lights c p
    exact ⟨hw.trans hw', hh.trans hh'⟩

theorem renderPixel_get_other (cam : Camera) (objs : List Sphere)
    (lights : List Light) (c : Canvas) (p : ℕ × ℕ) (i j : ℕ)
    (hne : ¬ (p.1 = i ∧ p.2 = j)) :
    (renderPixel cam objs lights c p).get i j = c.get i j := by
  unfold renderPixel
  split
  · rfl
  · rw [Canvas.get_ink_char, if_neg (by tauto)]

theorem renderPixel_isSome (cam : Camera) (objs : List Sphere)
    (lights : List Light) (c : Canvas) (p : ℕ × ℕ) (i j : ℕ) :
    ((renderPixel cam objs lights c p).get i j).isSome = ((c.get i j).isSome) := by
  unfold renderPixel
  split
  · rfl
  · rw [Canvas.get_ink_char]
    by_cases h : p.1 = i ∧ p.2 = j ∧ (c.get p.1 p.2).isSome
    · rw [if_pos h]
      obtain ⟨h1, h2, h3⟩ := h
      subst h1
      subst h2
      simp [h3]
    · rw [if_neg h]

theorem get_foldl_not_mem (cam : Camera) (objs : List Sphere) (lights : List Light)
    (x y : ℕ) :
    ∀ (ps : List (ℕ × ℕ)) (c : Canvas), (x, y) ∉ ps →
      (ps.foldl (renderPixel cam objs lights) c).get x y = c.get x y := by
  intro ps
  induction ps with
  | nil => exact fun c _ => rfl
  | cons p ps ih =>
    intro c hmem
    simp only [List.foldl_cons]
    rw [ih _ (fun hc => hmem (List.mem_cons_of_mem p hc)),
        renderPixel_get_other cam objs lights c p x y]
    rintro ⟨h1, h2⟩
    apply hmem
    rw [← h1, ← h2]
    exact List.mem_cons_self p ps

theorem get_foldl_isSome (cam : Camera) (objs : List Sphere) (lights : List Light)
    (i j : ℕ) :
    ∀ (ps : List (ℕ × ℕ)) (c : Canvas),
      ((ps.foldl (renderPixel cam objs lights) c).get i j).isSome
        = ((c.get i j).isSome) := by
  intro ps
  induction ps with
  | nil => exact fun c => rfl
  | cons p ps ih =>
    intro c
    simp only [List.foldl_cons]
    rw [ih, renderPixel_isSome]

theorem mem_iproduct (a b x y : ℕ) : (x, y) ∈ iproduct a b ↔ x < a ∧ y < b := by
  induction a with
  | zero => simp [iproduct]
  | succ a ih =>
    simp only [iproduct, List.mem_append, List.mem_map, List.mem_range, ih]
    constructor
    · rintro (⟨hx, hy⟩ | ⟨y', hy', heq⟩)
      · exact ⟨Nat.lt_succ_of_lt hx, hy⟩
      · injection heq with h1 h2
        subst h1
        subst h2
        exact ⟨Nat.lt_succ_self a, hy'⟩
    · rintro ⟨hx, hy⟩
      rcases Nat.lt_succ_iff_lt_or_eq.mp hx with h | rfl
      · exact Or.inl ⟨h, hy⟩
      · exact Or.inr ⟨y, hy, rfl⟩

theorem renderPixel_get_self (cam : Camera) (objs : List Sphere)
    (lights : List Light) (c : Canvas) (x y : ℕ)
    (hshape : (c.get x y).isSome ↔ (x < cam.pixels_height ∧ y < cam.pixels_width)) :
    (renderPixel cam objs lights c (x, y)).get x y
      = match firstHit objs (cam.rayAt x y) with
        | some coll =>
          if x < cam.pixels_height ∧ y < cam.pixels_width
          then some (shade objs lights coll) else none
        | none => c.get x y := by
  rcases hfh : firstHit objs (cam.rayAt x y) with _ | coll
  · simp only [renderPixel, hfh]
  · simp only [renderPixel, hfh]
    rw [Canvas.get_ink_char]
    by_cases hb : x < cam.pixels_height ∧ y < cam.pixels_width
    · rw [if_pos ⟨rfl, rfl, hshape.mpr hb⟩, if_pos hb]
    · rw [if_neg (fun hcon => hb (hshape.mp hcon.2.2)), if_neg hb]
      cases hg : c.get x y with
      | none => rfl
      | some w =>
        exfalso
        exact hb (hshape.mp (by rw [hg]; rfl))

theorem get_fold_blk (cam : Camera) (objs : List Sphere) (lights : List Light)
    (a y0 : ℕ) :
    ∀ (b : ℕ) (c : Canvas),
      (∀ i j : ℕ, ((c.get i j).isSome ↔ (i < cam.pixels_height ∧ j < cam.pixels_width))) →
      ((((List.range b).map fun y => (a, y)).foldl (renderPixel cam objs lights) c).get a y0)
        = if y0 < b then
            (match firstHit objs (cam.rayAt a y0) with
             | some coll =>
               if a < cam.pixels_height ∧ y0 < cam.pixels_width
               then some (shade objs lights coll) else none
             | none => c.get a y0)
          else c.get a y0 := by
  intro b
  induction b with
  | zero =>
    intro c _
    rw [if_neg (by omega)]
    rfl
  | succ b ih =>
    intro c hshape
    rw [List.range_succ, List.map_append, List.foldl_append]
    simp only [List.map_cons, List.map_nil, List.foldl_cons, List.foldl_nil]
    set c' := (((List.range b).map fun y => (a, y)).foldl (renderPixel cam objs lights) c)
      with hc'
    have hshape' : ∀ i j : ℕ,
        ((c'.get i j).isSome ↔ (i < cam.pixels_height ∧ j < cam.pixels_width)) := by
      intro i j
      rw [hc', get_foldl_isSome]
      exact hshape i j
    by_cases hyb : y0 = b
    · subst hyb
      rw [renderPixel_get_self cam objs lights c' a y0 (hshape' a y0),
          if_pos (by omega)]
      have hnm : (a, y0) ∉ ((List.range y0).map fun y => (a, y)) := by
        intro hmem
        obtain ⟨y', hy', heq⟩ := List.mem_map.mp hmem
        injection heq with h1 h2
        subst h2
        exact absurd (List.mem_range.mp hy') (by omega)
      have hcc : c'.get a y0 = c.get a y0 := by
        rw [hc']
        exact get_foldl_not_mem cam objs lights a y0 _ c hnm
      rw [hcc]
    · rw [renderPixel_get_other cam objs lights c' (a, b) a y0
          (fun h => hyb h.2.symm)]
      rw [hc', ih c hshape]
      by_cases hlt : y0 < b
      · rw [if_pos hlt, if_pos (by omega)]
      · rw [if_neg hlt, if_neg (by omega)]

theorem get_fold_ip (cam : Camera) (objs : List Sphere) (lights : List Light)
    (x y : ℕ) :
    ∀ (a : ℕ) (c : Canvas),
      (∀ i j : ℕ, ((c.get i j).isSome ↔ (i < cam.pixels_height ∧ j < cam.pixels_width))) →
      (((iproduct a cam.pixels_height).foldl (renderPixel cam objs lights) c).get x y)
        = if x < a ∧ y < cam.pixels_height then
            (match firstHit objs (cam.rayAt x y) with
             | some coll =>
               if x < cam.pixels_height ∧ y < cam.pixels_width
               then some (shade objs lights coll) else none
             | none => c.get x y)
          else c.get x y := by
  intro a
  induction a with
  | zero =>
    intro c _
    rw [if_neg (by omega)]
    rfl
  | succ a ih =>
    intro c hshape
    simp only [iproduct, List.foldl_append]
    set c' := ((iproduct a cam.pixels_height).foldl (renderPixel cam objs lights) c)
      with hc'
    have hshape' : ∀ i j : ℕ,
        ((c'.get i j).isSome ↔ (i < cam.pixels_height ∧ j < cam.pixels_width)) := by
      intro i j
      rw [hc', get_foldl_isSome]
      exact hshape i j
    by_cases hxa : x = a
    · subst hxa
      rw [get_fold_blk cam objs lights x y cam.pixels_height c' hshape']
      have hget : c'.get x y = c.get x y := by
        rw [hc']
        apply get_foldl_not_mem
        intro hmem
        exact absurd ((mem_iproduct _ _ _ _).mp hmem).1 (lt_irrefl x)
      by_cases hy : y < cam.pixels_height
      · rw [if_pos hy, if_pos (by omega), hget]
      · rw [if_neg hy, if_neg (by omega), hget]
    · have hnm : (x, y) ∉ ((List.range cam.pixels_height).map fun y => (a, y)) := by
        intro hmem
        obtain ⟨y', _, heq⟩ := List.mem_map.mp hmem
        injection heq with h1 h2
        exact hxa h1.symm
      rw [get_foldl_not_mem cam objs lights x y _ c' hnm, hc', ih c hshape]
      by_cases hxlt : x < a
      · by_cases hy : y < cam.pixels_height
        · rw [if_pos ⟨hxlt, hy⟩, if_pos (by omega)]
        · rw [if_neg (by tauto), if_neg (by tauto)]
      · rw [if_neg (by tauto), if_neg (by omega)]

/-- The cell-level characterisation of `Camera::raytrace`: a cell `(x, y)`
exists iff `x < pixels_height ∧ y < pixels_width` (the `Canvas` row index is
bounded by `height`); a cell that is also a visited pixel coordinate
(`x < pixels_width ∧ y < pixels_height`) and whose primary ray hits some
object holds the shaded intensity, and every other existing cell holds the
white background `255`. -/
theorem raytrace_get (cam : Camera) (objs : List Sphere) (lights : List Light)
    (x y : ℕ) :
    (cam.raytrace objs lights).get x y
      = if x < cam.pixels_height ∧ y < cam.pixels_width then
          some (if x < cam.pixels_width ∧ y < cam.pixels_height then
                  (match firstHit objs (cam.rayAt x y) with
                   | some coll => shade objs lights coll
                   | none => 255)
                else 255)
        else none := by
  unfold Camera.raytrace
  have hshape : ∀ i j : ℕ,
      (((Canvas.new cam.pixels_width cam.pixels_height).get i j).isSome
        ↔ (i < cam.pixels_height ∧ j < cam.pixels_width)) := by
    intro i j
    rw [Canvas.get_new]
    by_cases h : i < cam.pixels_height ∧ j < cam.pixels_width
    · rw [if_pos h]
      simpa using h
    · rw [if_neg h]
      simpa using h
  rw [get_fold_ip cam objs lights x y cam.pixels_width
      (Canvas.new cam.pixels_width cam.pixels_height) hshape,
    Canvas.get_new]
  by_cases hv : x < cam.pixels_width ∧ y < cam.pixels_height
  · rw [if_pos hv]
    rcases hfh : firstHit objs (cam.rayAt x y) with _ | coll
    · simp only [hfh]
      by_cases hc : x < cam.pixels_height ∧ y < cam.pixels_width
      · rw [if_pos hc, if_pos hc, if_pos hv]
      · rw [if_neg hc, if_neg hc]
    · simp only [hfh]
      by_cases hc : x < cam.pixels_height ∧ y < cam.pixels_width
      · rw [if_pos hc, if_pos hc, if_pos hv]
      · rw [if_neg hc, if_neg hc]
  · rw [if_neg hv]
    by_cases hc : x < cam.pixels_height ∧ y < cam.pixels_width
    · rw [if_pos hc, if_pos hc, if_neg hv]
    · rw [if_neg hc, if_neg hc]

/-- The dimensions fields of the rendered canvas match the camera's
configured resolution. -/
theorem raytrace_dims (cam : Camera) (objs : List Sphere) (lights : List Light) :
    (cam.raytrace objs lights).width = cam.pixels_width ∧
    (cam.raytrace objs lights).height = cam.pixels_height := by
  unfold Camera.raytrace
  obtain ⟨hw, hh⟩ := foldl_renderPixel_dims cam objs lights
    (iproduct cam.pixels_width cam.pixels_height)
    (Canvas.new cam.pixels_width cam.pixels_height)
  exact ⟨hw, hh⟩

theorem cast_ray_le (ray : Ray) (light_distance : ℝ) (objects : List Sphere) :
    Camera.cast_ray ray light_distance objects ≤ 255 := by
  unfold Camera.cast_ray
  split
  · exact Nat.zero_le _
  · exact Nat.sub_le _ _

theorem lightIntensity_le (objects : List Sphere) (collision : Vector) (light : Light) :
    lightIntensity objects collision light ≤ 255 :=
  cast_ray_le _ _ _

theorem shade_le (objects : List Sphere) (lights : List Light) (collision : Vector) :
    shade objects lights collision ≤ 255 := by
  unfold shade
  have h : ∀ (ls : List Light) (i : ℕ), i ≤ 255 →
      ls.foldl (fun _intensity light => lightIntensity objects collision light) i ≤ 255 := by
    intro ls
    induction ls with
    | nil => exact fun i h => h
    | cons l ls ih =>
      intro i h
      simp only [List.foldl_cons]
      exact ih _ (lightIntensity_le objects collision l)
  exact h lights 0 (by omega)

theorem shade_append_last (objects : List Sphere) (collision : Vector)
    (ls : List Light) (l : Light) :
    shade objects (ls ++ [l]) collision = lightIntensity objects collision l := by
  unfold shade
  rw [List.foldl_append]
  rfl

theorem shade_single (objects : List Sphere) (collision : Vector) (l : Light) :
    shade objects [l] collision = lightIntensity objects collision l :=
  rfl

/-- C7: the per-pixel light loop overwrites `intensity` on every iteration,
so with two or more lights the shaded value is exactly the one computed for
the last light in the list alone, and the rendered canvas agrees cell-for-cell
with a render using only the last light. -/
theorem C7_last_light :
    (∀ (objects : List Sphere) (collision : Vector) (l0 : Light) (ls : List Light)
        (l : Light),
      shade objects (l0 :: ls ++ [l]) collision = lightIntensity objects collision l) ∧
    (∀ (cam : Camera) (objects : List Sphere) (l0 : Light) (ls : List Light)
        (l : Light) (x y : ℕ),
      (cam.raytrace objects (l0 :: ls ++ [l])).get x y
        = (cam.raytrace objects [l]).get x y) := by
  constructor
  · intro objects collision l0 ls l
    exact shade_append_last objects collision (l0 :: ls) l
  · intro cam objects l0 ls l x y
    rw [raytrace_get, raytrace_get]
    by_cases hc : x < cam.pixels_height ∧ y < cam.pixels_width
    · rw [if_pos hc, if_pos hc]
      by_cases hv : x < cam.pixels_width ∧ y < cam.pixels_height
      · rw [if_pos hv, if_pos hv]
        rcases hfh : firstHit objects (cam.rayAt x y) with _ | coll
        · simp only [hfh]
        · simp only [hfh]
          rw [shade_single, shade_append_last objects coll (l0 :: ls) l]
      · rw [if_neg hv, if_neg hv]
    · rw [if_neg hc, if_neg hc]

/-- C9: rendering is deterministic — two scenes with equal object lists, light
lists and cameras render to canvases with identical contents in every cell
(the render pass is a pure function of the scene; it reads no clock, random
source or other ambient state). -/
theorem C9_deterministic :
    ∀ s1 s2 : Scene, s1.objects = s2.objects → s1.lights = s2.lights →
      s1.camera = s2.camera → ∀ x y : ℕ,
      (Scene.raytrace s1).get x y = (Scene.raytrace s2).get x y := by
  rintro ⟨o1, c1, l1⟩ ⟨o2, c2, l2⟩ ho hl hc x y
  simp only at ho hl hc
  subst ho
  subst hl
  subst hc
  rfl

/-- C9 witness: the determinism statement applied to one concrete scene
compared with itself. -/
theorem C9_witness :
    (Scene.raytrace (Scene.new (Camera.new 10 10 1 1))).get 0 0
      = (Scene.raytrace (Scene.new (Camera.new 10 10 1 1))).get 0 0 :=
  C9_deterministic (Scene.new (Camera.new 10 10 1 1))
    (Scene.new (Camera.new 10 10 1 1)) rfl rfl rfl 0 0

/-- C8 counterexample: for resolution `pixels_width = 2, pixels_height = 1`
the coordinate `(1, 0)` satisfies the claim's in-bounds condition
`x < pixel_width ∧ y < pixel_height`, yet `get` on the rendered canvas
reports absence — `Canvas::get` indexes rows by `x`, which is bounded by
`pixels_height`. -/
theorem C8_counterexample :
    1 < (Camera.new 10 10 2 1).pixels_width ∧
    0 < (Camera.new 10 10 2 1).pixels_height ∧
    ((Camera.new 10 10 2 1).raytrace [] []).get 1 0 = none := by
  refine ⟨by norm_num [Camera.new], by norm_num [Camera.new], ?_⟩
  rw [raytrace_get]
  rw [if_neg (by norm_num [Camera.new])]

/-- C8 (amended): the rendered canvas's `width`/`height` fields equal the
configured `pixels_width`/`pixels_height`; a coordinate `(x, y)` is an
in-bounds cell iff `x < pixel_height ∧ y < pixel_width` (the claim's
condition is transposed, since `get` indexes rows by `x`); every cell holds a
value in `[0, 255]`; and every cell not written by the render pass holds the
background value `255`. -/
theorem C8_canvas :
    (∀ (cam : Camera) (objects : List Sphere) (lights : List Light),
      (cam.raytrace objects lights).width = cam.pixels_width ∧
      (cam.raytrace objects lights).height = cam.pixels_height) ∧
    (∀ (cam : Camera) (objects : List Sphere) (lights : List Light) (x y : ℕ),
      ((cam.raytrace objects lights).get x y).isSome
        ↔ (x < cam.pixels_height ∧ y < cam.pixels_width)) ∧
    (∀ (cam : Camera) (objects : List Sphere) (lights : List Light) (x y v : ℕ),
      (cam.raytrace objects lights).get x y = some v → v ≤ 255) ∧
    (∀ (cam : Camera) (objects : List Sphere) (lights : List Light) (x y v : ℕ),
      (cam.raytrace objects lights).get x y = some v →
      ¬ (x < cam.pixels_width ∧ y < cam.pixels_height ∧
          (firstHit objects (cam.rayAt x y)).isSome) →
      v = 255) := by
  refine ⟨fun cam objects lights => raytrace_dims cam objects lights, ?_, ?_, ?_⟩
  · intro cam objects lights x y
    rw [raytrace_get]
    by_cases hc : x < cam.pixels_height ∧ y < cam.pixels_width
    · rw [if_pos hc]
      simpa using hc
    · rw [if_neg hc]
      simpa using hc
  · intro cam objects lights x y v hget
    rw [raytrace_get] at hget
    by_cases hc : x < cam.pixels_height ∧ y < cam.pixels_width
    · rw [if_pos hc] at hget
      injection hget with hv
      rw [← hv]
      by_cases hv' : x < cam.pixels_width ∧ y < cam.pixels_height
      · rw [if_pos hv']
        rcases hfh : firstHit objects (cam.rayAt x y) with _ | coll
        · simp only [hfh]
          exact le_rfl
        · simp only [hfh]
          exact shade_le objects lights coll
      · rw [if_neg hv']
    · rw [if_neg hc] at hget
      exact Option.noConfusion hget
  · intro cam objects lights x y v hget hnw
    rw [raytrace_get] at hget
    by_cases hc : x < cam.pixels_height ∧ y < cam.pixels_width
    · rw [if_pos hc] at hget
      injection hget with hv
      rw [← hv]
      by_cases hv' : x < cam.pixels_width ∧ y < cam.pixels_height
      · rw [if_pos hv']
        rcases hfh : firstHit objects (cam.rayAt x y) with _ | coll
        · simp only [hfh]
        · exact absurd ⟨hv'.1, hv'.2, by rw [hfh]; rfl⟩ hnw
      · rw [if_neg hv']
    · rw [if_neg hc] at hget
      exact Option.noConfusion hget

/-- C8 witness: the value-range clause applied to a `1 × 1` camera with no
objects — the single cell holds the background `255`, which is at most
`255`. -/
theorem C8_witness :
    ((Camera.new 10 10 1 1).raytrace [] []).get 0 0 = some 255 ∧ (255 : ℕ) ≤ 255 := by
  have hget : ((Camera.new 10 10 1 1).raytrace [] []).get 0 0 = some 255 := by
    rw [raytrace_get, if_pos (by norm_num [Camera.new]),
        if_pos (by norm_num [Camera.new])]
    rfl
  exact ⟨hget, C8_canvas.2.2.1 (Camera.new 10 10 1 1) [] [] 0 0 255 hget⟩

theorem firstHit_concrete (n0 : ℝ) :
    firstHit [Sphere.new (Vector.mk 0 0 5 1) 1]
        (Ray.new (Vector.mk 0 0 0 n0) (Vector.mk 0 0 1 1))
      = some (Vector.mk 0 0 4 4) := by
  unfold firstHit
  rw [collides_concrete n0]
  rfl

/-- The primary ray of the single pixel of the `1 × 1` camera: origin at the
world origin (with recomputed cached magnitude `0`), direction `plane_z`. -/
theorem rayAt_cam1 :
    (Camera.new 10 10 1 1).rayAt 0 0 = Ray.new (Vector.mk 0 0 0 0) (Vector.mk 0 0 1 1) := by
  unfold Camera.rayAt Camera.ray_origin Camera.plane_y Ray.new
  simp only [Camera.new, Vector.new, Vector.cross, Vector.mult, Vector.add]
  norm_num

/-- C10: with an empty light list, a visited pixel whose primary ray hits some
object is inked with intensity `0` (the per-pixel `intensity` is initialised
to `0` before the light loop and written unconditionally on a hit); any
existing cell for such a pixel holds `0`, never the background `255`. -/
theorem C10_no_lights (cam : Camera) (objects : List Sphere) (x y : ℕ)
    (coll : Vector) (hx : x < cam.pixels_width) (hy : y < cam.pixels_height)
    (hhit : firstHit objects (cam.rayAt x y) = some coll) :
    (x < cam.pixels_height → y < cam.pixels_width →
      (cam.raytrace objects []).get x y = some 0) ∧
    (∀ v : ℕ, (cam.raytrace objects []).get x y = some v → v = 0) := by
  constructor
  · intro hxh hyw
    rw [raytrace_get, if_pos ⟨hxh, hyw⟩, if_pos ⟨hx, hy⟩]
    simp only [hhit]
    rfl
  · intro v hget
    rw [raytrace_get] at hget
    by_cases hc : x < cam.pixels_height ∧ y < cam.pixels_width
    · rw [if_pos hc, if_pos ⟨hx, hy⟩] at hget
      simp only [hhit] at hget
      injection hget with hv
      rw [← hv]
      rfl
    · rw [if_neg hc] at hget
      exact Option.noConfusion hget

/-- C10 witness: the `1 × 1` camera aimed at the sphere `(0,0,5)` radius `1`
with no lights — the pixel `(0,0)` is hit and its cell holds intensity `0`. -/
theorem C10_witness :
    firstHit [Sphere.new (Vector.mk 0 0 5 1) 1]
        ((Camera.new 10 10 1 1).rayAt 0 0) = some (Vector.mk 0 0 4 4) ∧
    ((Camera.new 10 10 1 1).raytrace [Sphere.new (Vector.mk 0 0 5 1) 1] []).get 0 0
      = some 0 := by
  have hhit : firstHit [Sphere.new (Vector.mk 0 0 5 1) 1]
      ((Camera.new 10 10 1 1).rayAt 0 0) = some (Vector.mk 0 0 4 4) := by
    rw [rayAt_cam1]
    exact firstHit_concrete 0
  refine ⟨hhit, ?_⟩
  exact (C10_no_lights (Camera.new 10 10 1 1) [Sphere.new (Vector.mk 0 0 5 1) 1]
      0 0 (Vector.mk 0 0 4 4) (by norm_num [Camera.new]) (by norm_num [Camera.new])
      hhit).1 (by norm_num [Camera.new]) (by norm_num [Camera.new])

end RT
